import Mathlib

/-!
# BudgetManager core: shallow embedding and verification

The repository snapshot ships only documentation (README, docs/index.md,
docs/usage.md, docs/reports.md); the Python modules
`src/budgetmanager/core/{transaction,ledger,report,budget}.py` and
`src/budgetmanager/utils/timestamp.py` are absent.  Every definition below
is therefore modelled from the specification (spec.md §3, §4, §6, §7),
keeping the snake_case names the repository documentation uses for the
missing code.  Monetary amounts are integers counting cents ("signed
decimal, exact to the cent", spec §3): e.g. 5000.00 is 500000.
-/

namespace BudgetManager

/-- Error kinds of spec §7: FormatError, ValidationError, NotFoundError,
IOError, each carrying a message for the CLI layer. -/
inductive BudgetError where
  | formatError (msg : String)
  | validationError (msg : String)
  | notFoundError (msg : String)
  | ioError (msg : String)
deriving DecidableEq, Repr

/-! ## Digit rendering and parsing helpers -/

/-- The decimal digit character for `n % 10`-style values; total, with all
values `≥ 9` mapped to `'9'` (never reached on in-range inputs). -/
def digitChar : Nat → Char
  | 0 => '0'
  | 1 => '1'
  | 2 => '2'
  | 3 => '3'
  | 4 => '4'
  | 5 => '5'
  | 6 => '6'
  | 7 => '7'
  | 8 => '8'
  | _ => '9'

/-- Inverse of `digitChar`: the value of a decimal digit character. -/
def charToDigit (c : Char) : Option Nat :=
  if c = '0' then some 0
  else if c = '1' then some 1
  else if c = '2' then some 2
  else if c = '3' then some 3
  else if c = '4' then some 4
  else if c = '5' then some 5
  else if c = '6' then some 6
  else if c = '7' then some 7
  else if c = '8' then some 8
  else if c = '9' then some 9
  else none

/-- Two-digit zero-padded rendering of `n < 100`. -/
def pad2 (n : Nat) : List Char :=
  [digitChar (n / 10), digitChar (n % 10)]

/-- Four-digit zero-padded rendering of `n < 10000`. -/
def pad4 (n : Nat) : List Char :=
  [digitChar (n / 1000), digitChar (n / 100 % 10), digitChar (n / 10 % 10),
   digitChar (n % 10)]

/-- Parse two digit characters as a two-digit number. -/
def parse2 (a b : Char) : Option Nat :=
  match charToDigit a, charToDigit b with
  | some x, some y => some (10 * x + y)
  | _, _ => none

/-- Parse four digit characters as a four-digit number. -/
def parse4 (a b c d : Char) : Option Nat :=
  match charToDigit a, charToDigit b, charToDigit c, charToDigit d with
  | some x, some y, some z, some w => some (1000 * x + 100 * y + 10 * z + w)
  | _, _, _, _ => none

/-! ## Timestamp (spec §3, §4.1) -/

/-- Modelled from the spec: `Timestamp` (spec §3), the immutable calendar
date-and-time value type of `src/budgetmanager/utils/timestamp.py`, which is
missing from the snapshot; components `{year, month, day, hour, minute,
second}`. -/
structure Timestamp where
  year : Nat
  month : Nat
  day : Nat
  hour : Nat
  minute : Nat
  second : Nat
deriving DecidableEq, Repr

/-- Leap year test (Gregorian): divisible by 4 and not by 100 unless by 400. -/
def isLeapYear (y : Nat) : Bool :=
  y % 4 = 0 && (y % 100 ≠ 0 || y % 400 = 0)

/-- Number of days of month `m` of year `y` (leap-year aware, spec §4.1). -/
def daysInMonth (y m : Nat) : Nat :=
  if m = 2 then (if isLeapYear y then 29 else 28)
  else if m = 4 ∨ m = 6 ∨ m = 9 ∨ m = 11 then 30
  else 31

/-- Calendar validity of the six components (spec §3): month 1–12, day valid
for month/year, hour 0–23, minute/second 0–59.  Years are limited to
1–9999, the range representable in the fixed-width ISO-8601 text form of
spec §6. -/
def Timestamp.isValid (t : Timestamp) : Prop :=
  1 ≤ t.year ∧ t.year ≤ 9999 ∧ 1 ≤ t.month ∧ t.month ≤ 12 ∧
  1 ≤ t.day ∧ t.day ≤ daysInMonth t.year t.month ∧
  t.hour ≤ 23 ∧ t.minute ≤ 59 ∧ t.second ≤ 59

instance (t : Timestamp) : Decidable t.isValid := by
  unfold Timestamp.isValid; infer_instance

/-- Total order on timestamps: lexicographic over the six components
(spec §3). -/
def Timestamp.le (a b : Timestamp) : Prop :=
  a.year < b.year ∨ (a.year = b.year ∧
    (a.month < b.month ∨ (a.month = b.month ∧
      (a.day < b.day ∨ (a.day = b.day ∧
        (a.hour < b.hour ∨ (a.hour = b.hour ∧
          (a.minute < b.minute ∨ (a.minute = b.minute ∧
            a.second ≤ b.second)))))))))

instance : LE Timestamp := ⟨Timestamp.le⟩

instance (a b : Timestamp) : Decidable (a ≤ b) := by
  show Decidable (Timestamp.le a b); unfold Timestamp.le; infer_instance

/-- The 19 characters of the ISO-8601 form `YYYY-MM-DDThh:mm:ss`. -/
def isoChars (t : Timestamp) : List Char :=
  pad4 t.year ++ '-' :: pad2 t.month ++ '-' :: pad2 t.day ++
    'T' :: pad2 t.hour ++ ':' :: pad2 t.minute ++ ':' :: pad2 t.second

/-- ISO-8601 rendering `YYYY-MM-DDThh:mm:ss` (spec §4.1, §6). -/
def Timestamp.to_iso_format (t : Timestamp) : String :=
  String.mk (isoChars t)

/-- Character-level ISO-8601 parsing: `none` on any deviation from the
fixed-width `YYYY-MM-DDThh:mm:ss` layout or any out-of-range component. -/
def fromIsoChars : List Char → Option Timestamp
  | [y1, y2, y3, y4, a, m1, m2, b, d1, d2, c, h1, h2, d, mi1, mi2, e, s1, s2] =>
    if a = '-' ∧ b = '-' ∧ c = 'T' ∧ d = ':' ∧ e = ':' then
      match parse4 y1 y2 y3 y4, parse2 m1 m2, parse2 d1 d2,
            parse2 h1 h2, parse2 mi1 mi2, parse2 s1 s2 with
      | some y, some mo, some dy, some h, some mi, some se =>
        let t : Timestamp := ⟨y, mo, dy, h, mi, se⟩
        if t.isValid then some t else none
      | _, _, _, _, _, _ => none
    else none
  | _ => none

/-- Modelled from the spec: `Timestamp.from_iso_format` (spec §4.1), the
ISO-8601 parser of the missing `timestamp.py`; fails with a FormatError on
any deviation — wrong separators, out-of-range component, missing
component (spec §3). -/
def Timestamp.from_iso_format (s : String) : Except BudgetError Timestamp :=
  match fromIsoChars s.toList with
  | some t => Except.ok t
  | none => Except.error (BudgetError.formatError s)


/-- The timestamp one second later, carrying through minute, hour, day,
month and year (used to state the boundary property of spec §8). -/
def Timestamp.addOneSecond (t : Timestamp) : Timestamp :=
  if t.second < 59 then ⟨t.year, t.month, t.day, t.hour, t.minute, t.second + 1⟩
  else if t.minute < 59 then ⟨t.year, t.month, t.day, t.hour, t.minute + 1, 0⟩
  else if t.hour < 23 then ⟨t.year, t.month, t.day, t.hour + 1, 0, 0⟩
  else if t.day < daysInMonth t.year t.month then
    ⟨t.year, t.month, t.day + 1, 0, 0, 0⟩
  else if t.month < 12 then ⟨t.year, t.month + 1, 1, 0, 0, 0⟩
  else ⟨t.year + 1, 1, 1, 0, 0, 0⟩

/-! ## Transaction (spec §3) -/

/-- Modelled from the spec: `Transaction` (spec §3), the immutable value
entity of the missing `src/budgetmanager/core/transaction.py`: id,
timestamp, category, signed amount in cents, optional description. -/
structure Transaction where
  id : Nat
  timestamp : Timestamp
  category : String
  amount : Int
  description : Option String
deriving DecidableEq, Repr

/-- Sign convention (spec §3): `amount ≥ 0` is income (zero included). -/
def Transaction.is_income (t : Transaction) : Bool :=
  decide (0 ≤ t.amount)

/-- Sign convention (spec §3): `amount < 0` is an expense. -/
def Transaction.is_expense (t : Transaction) : Bool :=
  decide (t.amount < 0)

/-! ## Ledger (spec §3, §4.2) -/

/-- Modelled from the spec: `Ledger` (spec §3), the in-memory ordered
collection of Transactions of the missing
`src/budgetmanager/core/ledger.py`. -/
structure Ledger where
  transactions : List Transaction
deriving DecidableEq, Repr

/-- The id assigned to the next transaction: one greater than the maximum
id present, or 0 when the ledger is empty (spec §4.2). -/
def Ledger.next_id (l : Ledger) : Nat :=
  l.transactions.foldl (fun m t => max m (t.id + 1)) 0

/-- Modelled from the spec: `Ledger.add` (spec §4.2) of the missing
`ledger.py`: constructs a Transaction with the next id and appends it;
returns the constructed Transaction together with the new ledger state. -/
def Ledger.add (l : Ledger) (timestamp : Timestamp) (category : String)
    (amount : Int) (description : Option String) : Transaction × Ledger :=
  let t : Transaction := ⟨l.next_id, timestamp, category, amount, description⟩
  (t, ⟨l.transactions ++ [t]⟩)

/-- Remove the first transaction with the given id from a list, returning
it and the remaining list; `none` if no such id exists. -/
def removeById : List Transaction → Nat → Option (Transaction × List Transaction)
  | [], _ => none
  | t :: rest, i =>
    if t.id = i then some (t, rest)
    else match removeById rest i with
      | some (u, rest') => some (u, t :: rest')
      | none => none

/-- Modelled from the spec: `Ledger.remove` (spec §4.2) of the missing
`ledger.py`: removes and returns the Transaction with the given id, or
fails with a NotFoundError; on failure no new ledger state is produced. -/
def Ledger.remove (l : Ledger) (i : Nat) :
    Except BudgetError (Transaction × Ledger) :=
  match removeById l.transactions i with
  | some (t, rest) => Except.ok (t, ⟨rest⟩)
  | none => Except.error (BudgetError.notFoundError (toString i))

/-- The transactions of `l` whose timestamp lies in the inclusive range
`[start, stop]`. -/
def Ledger.in_range (l : Ledger) (start stop : Timestamp) : List Transaction :=
  l.transactions.filter fun t => start ≤ t.timestamp ∧ t.timestamp ≤ stop

/-- Modelled from the spec: `Ledger.filter_by_range` (spec §4.2) of the
missing `ledger.py`: inclusive on both ends, ValidationError iff
`start > end`, empty list (not an error) when nothing is in range. -/
def Ledger.filter_by_range (l : Ledger) (start stop : Timestamp) :
    Except BudgetError (List Transaction) :=
  if start ≤ stop then Except.ok (l.in_range start stop)
  else Except.error (BudgetError.validationError "start > end")

/-- Modelled from the spec: `Ledger.filter_by_category` (spec §4.2) of the
missing `ledger.py`: case-sensitive exact match. -/
def Ledger.filter_by_category (l : Ledger) (category : String) :
    List Transaction :=
  l.transactions.filter fun t => t.category = category

/-- Sum of the amounts of the income transactions of a list (spec §4.2:
all transactions with amount ≥ 0). -/
def total_income_of (txs : List Transaction) : Int :=
  ((txs.filter Transaction.is_income).map Transaction.amount).sum

/-- Sum of the magnitudes of the expense transactions of a list (spec
§4.2: absolute values of amounts < 0); a non-negative magnitude. -/
def total_expenses_of (txs : List Transaction) : Int :=
  ((txs.filter Transaction.is_expense).map (fun t => -t.amount)).sum

/-- Modelled from the spec: `Ledger.total_income` (spec §4.2). -/
def Ledger.total_income (l : Ledger) : Int :=
  total_income_of l.transactions

/-- Modelled from the spec: `Ledger.total_expenses` (spec §4.2). -/
def Ledger.total_expenses (l : Ledger) : Int :=
  total_expenses_of l.transactions

/-- Modelled from the spec: `Ledger.net_balance` (spec §4.2):
`total_income - total_expenses`. -/
def Ledger.net_balance (l : Ledger) : Int :=
  l.total_income - l.total_expenses

/-! ## ReportGenerator (spec §3, §4.3) -/

/-- Summary structure of spec §3: totals plus per-category signed totals;
`by_category` is an association list in category-first-seen order. -/
structure Summary where
  total_income : Int
  total_expenses : Int
  net_balance : Int
  by_category : List (String × Int)
deriving DecidableEq, Repr

/-- Add `amt` to the entry of `cat` in an association list, keeping
first-seen order; a new category is appended at the end. -/
def addToCategory : List (String × Int) → String → Int → List (String × Int)
  | [], cat, amt => [(cat, amt)]
  | (c, v) :: rest, cat, amt =>
    if c = cat then (c, v + amt) :: rest
    else (c, v) :: addToCategory rest cat amt

/-- Per-category signed totals of a transaction list, in category-first-seen
order, zero-net categories still present. -/
def accumulateByCategory (txs : List Transaction) : List (String × Int) :=
  txs.foldl (fun acc t => addToCategory acc t.category t.amount) []

/-- `by_category` of spec §4.3: per-category signed totals with the
zero-net categories omitted. -/
def by_category_of (txs : List Transaction) : List (String × Int) :=
  (accumulateByCategory txs).filter fun p => ¬ p.2 = 0

/-- The Summary aggregated from an already-filtered transaction list
(spec §4.3). -/
def summarize (txs : List Transaction) : Summary :=
  { total_income := total_income_of txs
    total_expenses := total_expenses_of txs
    net_balance := total_income_of txs - total_expenses_of txs
    by_category := by_category_of txs }

namespace ReportGenerator

/-- Modelled from the spec: `ReportGenerator.generate_summary_by_range`
(spec §4.3) of the missing `src/budgetmanager/core/report.py`: filters the
ledger by the inclusive range (propagating the ValidationError when
`start > end`), then aggregates. -/
def generate_summary_by_range (start stop : Timestamp) (ledger : Ledger) :
    Except BudgetError Summary :=
  match ledger.filter_by_range start stop with
  | Except.ok txs => Except.ok (summarize txs)
  | Except.error e => Except.error e

/-- Modelled from the spec: `ReportGenerator.generate_summary_by_year`
(spec §4.3): the range from Jan 1 00:00:00 to Dec 31 23:59:59. -/
def generate_summary_by_year (year : Nat) (ledger : Ledger) :
    Except BudgetError Summary :=
  generate_summary_by_range ⟨year, 1, 1, 0, 0, 0⟩ ⟨year, 12, 31, 23, 59, 59⟩
    ledger

/-- Modelled from the spec: `ReportGenerator.generate_summary_by_month`
(spec §4.3): first and last calendar day of the month at
00:00:00/23:59:59; ValidationError when `month` is outside 1–12. -/
def generate_summary_by_month (year month : Nat) (ledger : Ledger) :
    Except BudgetError Summary :=
  if 1 ≤ month ∧ month ≤ 12 then
    generate_summary_by_range ⟨year, month, 1, 0, 0, 0⟩
      ⟨year, month, daysInMonth year month, 23, 59, 59⟩ ledger
  else Except.error (BudgetError.validationError "month outside 1-12")

end ReportGenerator

/-! ## CSV rendering (spec §4.3, §6) -/

/-- Decimal digits of `n`, most significant first (no leading zeros except
for `0` itself). -/
def natDigits (n : Nat) : List Char :=
  if n < 10 then [digitChar n]
  else natDigits (n / 10) ++ [digitChar (n % 10)]
decreasing_by omega

/-- An amount in cents rendered with exactly two decimal digits, e.g.
`-40025` as `"-400.25"` (spec §4.3: two decimal digits). -/
def format_amount (n : Int) : String :=
  String.mk ((if n < 0 then ['-'] else []) ++ natDigits (n.natAbs / 100) ++
    '.' :: pad2 (n.natAbs % 100))

/-- One `category,amount` CSV row. -/
def csv_row (p : String × Int) : String :=
  p.1 ++ "," ++ format_amount p.2 ++ "\n"

/-- Modelled from the spec: the CSV serialization of
`ReportGenerator.export_to_csv` (spec §4.3, §6) of the missing
`report.py`: header row, one row per `by_category` entry in summary order,
one blank line, then the three total rows. -/
def csv_of_summary (s : Summary) : String :=
  "category,amount\n" ++
    (s.by_category.foldl (fun acc p => acc ++ csv_row p) "") ++ "\n" ++
    "total_income," ++ format_amount s.total_income ++ "\n" ++
    "total_expenses," ++ format_amount s.total_expenses ++ "\n" ++
    "net_balance," ++ format_amount s.net_balance ++ "\n"

/-- The destination file's contents: the state of the excluded file-writing
collaborator, as far as the export contract observes it. -/
def Destination := Option String

/-- Modelled from the spec: `ReportGenerator.export_to_csv` (spec §4.3)
viewed at the destination: writing replaces the destination's contents
with the serialized summary (no partial writes, spec §7). -/
def ReportGenerator.export_to_csv (s : Summary) (_dest : Destination) :
    Destination :=
  some (csv_of_summary s)

/-! ## Budget and its evaluator (spec §3, §4.4) -/

/-- Modelled from the spec: `Budget` (spec §3) of the missing
`src/budgetmanager/core/budget.py`: category label and monthly ceiling in
cents. -/
structure Budget where
  category : String
  limit : Int
deriving DecidableEq, Repr

/-- Result of the budget evaluator (spec §4.4). -/
structure EvalResult where
  spent : Int
  limit : Int
  exceeded : Bool
deriving DecidableEq, Repr

/-- First instant of the calendar month: day 1 at 00:00:00 (spec §4.3). -/
def monthStart (year month : Nat) : Timestamp :=
  ⟨year, month, 1, 0, 0, 0⟩

/-- Last instant of the calendar month: its last day at 23:59:59
(spec §4.3). -/
def monthEnd (year month : Nat) : Timestamp :=
  ⟨year, month, daysInMonth year month, 23, 59, 59⟩

/-- Modelled from the spec: the budget evaluator `evaluate` (spec §4.4),
absent with the missing core: sums the magnitudes of the expense
transactions of `budget.category` inside the calendar month of `ref`
(same first/last-day-of-month computation as §4.3), and compares with the
ceiling. -/
def evaluate (ledger : Ledger) (budget : Budget) (ref : Timestamp) :
    EvalResult :=
  let txs := ledger.transactions.filter fun t =>
    t.category = budget.category ∧ t.amount < 0 ∧
      monthStart ref.year ref.month ≤ t.timestamp ∧
      t.timestamp ≤ monthEnd ref.year ref.month
  let spent := (txs.map (fun t => -t.amount)).sum
  ⟨spent, budget.limit, decide (budget.limit < spent)⟩

/-- The signed value an association list carries for a category (0 when
the category is absent). -/
def valueOf : List (String × Int) → String → Int
  | [], _ => 0
  | (k, v) :: rest, c => if k = c then v else valueOf rest c

/-- The signed total of the transactions of category `c` in a list: the
claim's reading of "the transactions of a category within the period". -/
def category_total (txs : List Transaction) (c : String) : Int :=
  ((txs.filter fun t => t.category = c).map Transaction.amount).sum

/-- Uniqueness invariant (spec §3, invariant (a)): all transaction ids of
the ledger are distinct. -/
def uniqueIds (l : Ledger) : Prop :=
  (l.transactions.map Transaction.id).Nodup

/-- The CSV layout exactly as the claim words it: a header row, one row
per `by_category` entry in the summary's order, one blank line, then the
three total rows (this is the claim-side description, compared with
`csv_of_summary` below). -/
def csv_layout_lines (s : Summary) : List String :=
  "category,amount" ::
    (s.by_category.map fun p => p.1 ++ "," ++ format_amount p.2) ++
    "" :: ["total_income," ++ format_amount s.total_income,
      "total_expenses," ++ format_amount s.total_expenses,
      "net_balance," ++ format_amount s.net_balance]

/-- The claim-side description of the budget evaluator's spend: the summed
magnitudes of the expense transactions of category `c` whose timestamp
lies in the calendar month containing `ref`. -/
def month_category_expenses (l : Ledger) (c : String) (ref : Timestamp) : Int :=
  ((l.transactions.filter fun t => t.category = c ∧ t.amount < 0 ∧
      t.timestamp.year = ref.year ∧ t.timestamp.month = ref.month).map
    fun t => -t.amount).sum

/-- The ledger of the spec §8 scenario (amounts in cents). -/
def sampleLedger : Ledger :=
  ⟨[⟨0, ⟨2025, 5, 1, 0, 0, 0⟩, "salary", 500000, none⟩,
    ⟨1, ⟨2025, 5, 10, 12, 0, 0⟩, "groceries", -40025, none⟩,
    ⟨2, ⟨2025, 5, 20, 9, 0, 0⟩, "rent", -80025, none⟩]⟩

/-- The Summary the spec §8 scenario expects for May 2025. -/
def sampleSummary : Summary :=
  ⟨500000, 120050, 379950,
    [("salary", 500000), ("groceries", -40025), ("rent", -80025)]⟩

/-- A ledger realizing the spec §8 budget scenario: month-to-date grocery
expenses of 700.00. -/
def budgetLedger : Ledger :=
  ⟨[⟨0, ⟨2025, 6, 5, 10, 0, 0⟩, "groceries", -50000, none⟩,
    ⟨1, ⟨2025, 6, 20, 18, 30, 0⟩, "groceries", -20000, none⟩]⟩

/-- A ledger whose "travel" transactions cancel exactly within May 2025. -/
def cancelLedger : Ledger :=
  ⟨[⟨0, ⟨2025, 5, 2, 0, 0, 0⟩, "travel", 12300, none⟩,
    ⟨1, ⟨2025, 5, 3, 0, 0, 0⟩, "travel", -12300, none⟩,
    ⟨2, ⟨2025, 5, 4, 0, 0, 0⟩, "salary", 100, none⟩]⟩

/-! ## Digit and parsing lemmas -/

theorem digitChar_isDigit (n : Nat) : (digitChar n).isDigit = true := by
  unfold digitChar; split <;> decide

theorem digitChar_ne_dot (n : Nat) : digitChar n ≠ '.' := by
  unfold digitChar; split <;> decide

theorem charToDigit_digitChar {n : Nat} (h : n < 10) :
    charToDigit (digitChar n) = some n := by
  interval_cases n <;> rfl

theorem charToDigit_eq_some {c : Char} {v : Nat} (h : charToDigit c = some v) :
    v < 10 ∧ digitChar v = c := by
  unfold charToDigit at h
  repeat' split at h
  all_goals first
    | (rename_i hc
       injection h with h2
       subst h2
       subst hc
       exact ⟨by omega, rfl⟩)
    | simp at h

theorem parse2_pad2 {n : Nat} (h : n ≤ 99) :
    parse2 (digitChar (n / 10)) (digitChar (n % 10)) = some n := by
  have h1 : n / 10 < 10 := by omega
  have h2 : n % 10 < 10 := by omega
  unfold parse2
  rw [charToDigit_digitChar h1, charToDigit_digitChar h2]
  simp; omega

theorem parse4_pad4 {n : Nat} (h : n ≤ 9999) :
    parse4 (digitChar (n / 1000)) (digitChar (n / 100 % 10))
      (digitChar (n / 10 % 10)) (digitChar (n % 10)) = some n := by
  have h1 : n / 1000 < 10 := by omega
  have h2 : n / 100 % 10 < 10 := by omega
  have h3 : n / 10 % 10 < 10 := by omega
  have h4 : n % 10 < 10 := by omega
  unfold parse4
  rw [charToDigit_digitChar h1, charToDigit_digitChar h2,
    charToDigit_digitChar h3, charToDigit_digitChar h4]
  simp; omega

theorem parse2_eq_some {a b : Char} {v : Nat} (h : parse2 a b = some v) :
    v ≤ 99 ∧ digitChar (v / 10) = a ∧ digitChar (v % 10) = b := by
  unfold parse2 at h
  split at h
  next x y hx hy =>
    obtain ⟨hx10, hxc⟩ := charToDigit_eq_some hx
    obtain ⟨hy10, hyc⟩ := charToDigit_eq_some hy
    have hv : 10 * x + y = v := by injection h
    refine ⟨by omega, ?_, ?_⟩
    · have hq : v / 10 = x := by omega
      rw [hq, hxc]
    · have hr : v % 10 = y := by omega
      rw [hr, hyc]
  next => exact absurd h (by simp)

theorem parse4_eq_some {a b c d : Char} {v : Nat} (h : parse4 a b c d = some v) :
    v ≤ 9999 ∧ digitChar (v / 1000) = a ∧ digitChar (v / 100 % 10) = b ∧
      digitChar (v / 10 % 10) = c ∧ digitChar (v % 10) = d := by
  unfold parse4 at h
  split at h
  next x y z w hx hy hz hw =>
    obtain ⟨hx10, hxc⟩ := charToDigit_eq_some hx
    obtain ⟨hy10, hyc⟩ := charToDigit_eq_some hy
    obtain ⟨hz10, hzc⟩ := charToDigit_eq_some hz
    obtain ⟨hw10, hwc⟩ := charToDigit_eq_some hw
    have hv : 1000 * x + 100 * y + 10 * z + w = v := by injection h
    refine ⟨by omega, ?_, ?_, ?_, ?_⟩
    · have hq : v / 1000 = x := by omega
      rw [hq, hxc]
    · have hq : v / 100 % 10 = y := by omega
      rw [hq, hyc]
    · have hq : v / 10 % 10 = z := by omega
      rw [hq, hzc]
    · have hq : v % 10 = w := by omega
      rw [hq, hwc]
  next => exact absurd h (by simp)

theorem daysInMonth_le (y m : Nat) : daysInMonth y m ≤ 31 := by
  unfold daysInMonth
  split
  · split <;> omega
  · split <;> omega

theorem daysInMonth_pos (y m : Nat) : 1 ≤ daysInMonth y m := by
  unfold daysInMonth
  split
  · split <;> omega
  · split <;> omega

theorem toList_mk (l : List Char) : (String.mk l).toList = l := rfl

theorem fromIsoChars_isoChars {t : Timestamp} (h : t.isValid) :
    fromIsoChars (isoChars t) = some t := by
  obtain ⟨y, mo, dy, hh, mi, ss⟩ := t
  simp only [Timestamp.isValid] at h
  obtain ⟨h1, h2, h3, h4, h5, h6, h7, h8, h9⟩ := h
  have hdim := daysInMonth_le y mo
  simp only [isoChars, pad4, pad2, List.cons_append, List.nil_append]
  simp only [fromIsoChars]
  rw [if_pos (by decide)]
  rw [parse4_pad4 (by omega), parse2_pad2 (by omega), parse2_pad2 (by omega),
    parse2_pad2 (by omega), parse2_pad2 (by omega), parse2_pad2 (by omega)]
  simp only []
  rw [if_pos ⟨h1, h2, h3, h4, h5, h6, h7, h8, h9⟩]

theorem fromIsoChars_sound {l : List Char} {t : Timestamp}
    (h : fromIsoChars l = some t) : t.isValid ∧ isoChars t = l := by
  unfold fromIsoChars at h
  split at h
  next y1 y2 y3 y4 a m1 m2 b d1 d2 c h1 h2 d mi1 mi2 e s1 s2 =>
    split at h
    next hsep =>
      obtain ⟨ha, hb, hc, hd, he⟩ := hsep
      split at h
      next y mo dy hh mi se hp4 hp2a hp2b hp2c hp2d hp2e =>
        dsimp only at h
        split at h
        next hvalid =>
          injection h with h'
          subst h'
          obtain ⟨hy9, hy1, hy2, hy3, hy4⟩ := parse4_eq_some hp4
          obtain ⟨hmo9, hmo1, hmo2⟩ := parse2_eq_some hp2a
          obtain ⟨hdy9, hdy1, hdy2⟩ := parse2_eq_some hp2b
          obtain ⟨hhh9, hhh1, hhh2⟩ := parse2_eq_some hp2c
          obtain ⟨hmi9, hmi1, hmi2⟩ := parse2_eq_some hp2d
          obtain ⟨hse9, hse1, hse2⟩ := parse2_eq_some hp2e
          refine ⟨hvalid, ?_⟩
          simp only [isoChars, pad4, pad2, List.cons_append, List.nil_append]
          rw [hy1, hy2, hy3, hy4, hmo1, hmo2, hdy1, hdy2, hhh1, hhh2,
            hmi1, hmi2, hse1, hse2, ha, hb, hc, hd, he]
        next => exact absurd h (by simp)
      next => exact absurd h (by simp)
    next => exact absurd h (by simp)
  next => exact absurd h (by simp)

/-! ## Aggregation lemmas -/

theorem income_sub_expenses : ∀ txs : List Transaction,
    total_income_of txs - total_expenses_of txs =
      (txs.map Transaction.amount).sum
  | [] => by simp [total_income_of, total_expenses_of]
  | t :: ts => by
    have ih := income_sub_expenses ts
    simp only [total_income_of, total_expenses_of, List.filter_cons,
      List.map_cons, List.sum_cons] at ih ⊢
    by_cases h : (0 : Int) ≤ t.amount
    · simp only [Transaction.is_income, Transaction.is_expense,
        decide_eq_true_eq, h, if_pos, not_lt.mpr h, decide_eq_true_eq]
      simp only [decide_eq_true_eq, h, ite_true, not_lt.mpr h, ite_false,
        List.map_cons, List.sum_cons]
      omega
    · simp only [Transaction.is_income, Transaction.is_expense,
        decide_eq_true_eq, h, ite_false, not_le.mp h, ite_true,
        List.map_cons, List.sum_cons]
      omega

theorem snd_sum_addToCategory (acc : List (String × Int)) (c : String)
    (a : Int) :
    ((addToCategory acc c a).map Prod.snd).sum = (acc.map Prod.snd).sum + a := by
  induction acc with
  | nil => simp [addToCategory]
  | cons p rest ih =>
    obtain ⟨k, v⟩ := p
    simp only [addToCategory]
    split
    · simp [List.sum_cons]; ring
    · simp [List.sum_cons, ih]; ring

theorem snd_sum_accumulate (txs : List Transaction) :
    ∀ acc : List (String × Int),
      ((txs.foldl (fun acc t => addToCategory acc t.category t.amount)
          acc).map Prod.snd).sum =
        (acc.map Prod.snd).sum + (txs.map Transaction.amount).sum := by
  induction txs with
  | nil => intro acc; simp
  | cons t ts ih =>
    intro acc
    simp only [List.foldl_cons]
    rw [ih, snd_sum_addToCategory]
    simp [List.sum_cons]
    ring

theorem snd_sum_filter_nonzero (l : List (String × Int)) :
    ((l.filter fun p => ¬ p.2 = 0).map Prod.snd).sum =
      (l.map Prod.snd).sum := by
  induction l with
  | nil => rfl
  | cons p rest ih =>
    by_cases h : p.2 = 0
    · simp only [decide_not] at ih ⊢
      simp [List.filter_cons, h, ih]
    · simp only [decide_not] at ih ⊢
      simp [List.filter_cons, h, ih]

theorem by_category_sum (txs : List Transaction) :
    ((by_category_of txs).map Prod.snd).sum = (txs.map Transaction.amount).sum := by
  unfold by_category_of accumulateByCategory
  rw [snd_sum_filter_nonzero, snd_sum_accumulate]
  simp

theorem valueOf_addToCategory (acc : List (String × Int)) (c : String)
    (a : Int) (c' : String) :
    valueOf (addToCategory acc c a) c' =
      valueOf acc c' + (if c = c' then a else 0) := by
  induction acc with
  | nil =>
    simp only [addToCategory, valueOf]
    split <;> simp
  | cons p rest ih =>
    obtain ⟨k, v⟩ := p
    simp only [addToCategory]
    split
    next hk =>
      subst hk
      simp only [valueOf]
      split <;> simp
    next hk =>
      simp only [valueOf]
      by_cases hkc : k = c'
      · have : ¬ c = c' := fun hcc => hk (hcc ▸ hkc.symm ▸ rfl)
        simp [hkc, this]
      · simp [hkc, ih]

theorem valueOf_accumulate (txs : List Transaction) :
    ∀ (acc : List (String × Int)) (c : String),
      valueOf (txs.foldl (fun acc t => addToCategory acc t.category t.amount)
        acc) c = valueOf acc c + category_total txs c := by
  induction txs with
  | nil => intro acc c; simp [category_total]
  | cons t ts ih =>
    intro acc c
    simp only [List.foldl_cons]
    rw [ih, valueOf_addToCategory]
    simp only [category_total, List.filter_cons]
    by_cases h : t.category = c
    · simp [h]; ring
    · simp [h]

theorem keys_addToCategory (acc : List (String × Int)) (c : String) (a : Int) :
    (addToCategory acc c a).map Prod.fst =
      if c ∈ acc.map Prod.fst then acc.map Prod.fst
      else acc.map Prod.fst ++ [c] := by
  induction acc with
  | nil => simp [addToCategory]
  | cons p rest ih =>
    obtain ⟨k, v⟩ := p
    simp only [addToCategory]
    split
    next hk =>
      subst hk
      simp
    next hk =>
      have hne : ¬ c = k := fun hcc => hk hcc.symm
      by_cases hm : c ∈ rest.map Prod.fst
      · simp [hm, hne, ih]
      · simp [hm, hne, ih]

theorem nodup_keys_accumulate (txs : List Transaction) :
    ∀ acc : List (String × Int), (acc.map Prod.fst).Nodup →
      ((txs.foldl (fun acc t => addToCategory acc t.category t.amount)
        acc).map Prod.fst).Nodup := by
  induction txs with
  | nil => intro acc h; simpa using h
  | cons t ts ih =>
    intro acc h
    simp only [List.foldl_cons]
    apply ih
    rw [keys_addToCategory]
    split
    · exact h
    next hm => simp [List.Nodup.append, h, hm, List.disjoint_singleton]

theorem mem_nodup_valueOf : ∀ {l : List (String × Int)} {c : String} {v : Int},
    (c, v) ∈ l → (l.map Prod.fst).Nodup → valueOf l c = v := by
  intro l
  induction l with
  | nil => intro c v hm; cases hm
  | cons p rest ih =>
    intro c v hm hn
    obtain ⟨k, w⟩ := p
    simp only [List.map_cons, List.nodup_cons] at hn
    obtain ⟨hk, hrest⟩ := hn
    rcases List.mem_cons.mp hm with heq | hmem
    · injection heq with hc hv
      subst hc
      subst hv
      simp [valueOf]
    · have hne : ¬ k = c := by
        intro hkc
        subst hkc
        exact hk (List.mem_map.mpr ⟨(k, v), hmem, rfl⟩)
      simp only [valueOf, hne, ite_false]
      exact ih hmem hrest

/-! ## Order lemmas -/

theorem le_iff {a b : Timestamp} : a ≤ b ↔
    (a.year < b.year ∨ (a.year = b.year ∧
      (a.month < b.month ∨ (a.month = b.month ∧
        (a.day < b.day ∨ (a.day = b.day ∧
          (a.hour < b.hour ∨ (a.hour = b.hour ∧
            (a.minute < b.minute ∨ (a.minute = b.minute ∧
              a.second ≤ b.second)))))))))) :=
  Iff.rfl

theorem Timestamp.le_refl (t : Timestamp) : t ≤ t := by
  rw [le_iff]
  omega

theorem addOneSecond_not_le (t : Timestamp) : ¬ t.addOneSecond ≤ t := by
  unfold Timestamp.addOneSecond
  split
  · rw [le_iff]; dsimp only; omega
  · split
    · rw [le_iff]; dsimp only; omega
    · split
      · rw [le_iff]; dsimp only; omega
      · split
        · rw [le_iff]; dsimp only; omega
        · split
          · rw [le_iff]; dsimp only; omega
          · rw [le_iff]; dsimp only; omega

theorem month_range_iff {ref t : Timestamp} (ht : t.isValid) :
    (monthStart ref.year ref.month ≤ t ∧ t ≤ monthEnd ref.year ref.month) ↔
      (t.year = ref.year ∧ t.month = ref.month) := by
  obtain ⟨y, mo, dy, hh, mi, ss⟩ := t
  simp only [Timestamp.isValid] at ht
  constructor
  · rintro ⟨hlo, hhi⟩
    rw [le_iff] at hlo hhi
    simp only [monthStart, monthEnd] at hlo hhi
    dsimp only at hlo hhi ⊢
    omega
  · rintro ⟨hy, hm⟩
    subst hy
    subst hm
    refine ⟨?_, ?_⟩ <;>
      (rw [le_iff]; simp only [monthStart, monthEnd, true_and]; omega)

/-! ## Ledger lemmas -/

theorem foldl_max_le_init (txs : List Transaction) :
    ∀ a : Nat, a ≤ txs.foldl (fun m t => max m (t.id + 1)) a := by
  induction txs with
  | nil => intro a; exact Nat.le_refl a
  | cons w ws ihw =>
    intro a
    exact Nat.le_trans (Nat.le_max_left a (w.id + 1)) (ihw _)

theorem next_id_gt (l : Ledger) : ∀ t ∈ l.transactions, t.id < l.next_id := by
  unfold Ledger.next_id
  have step : ∀ (txs : List Transaction) (acc : Nat) (t : Transaction),
      t ∈ txs → t.id < txs.foldl (fun m t => max m (t.id + 1)) acc := by
    intro txs
    induction txs with
    | nil => intro acc t h; cases h
    | cons u us ih =>
      intro acc t h
      rcases List.mem_cons.mp h with heq | hmem
      · subst heq
        exact Nat.lt_of_lt_of_le (Nat.lt_of_lt_of_le (Nat.lt_succ_self _)
          (Nat.le_max_right _ _)) (foldl_max_le_init us _)
      · exact ih _ _ hmem
  intro t h
  exact step _ _ _ h

theorem next_id_achieved (l : Ledger) :
    l.next_id = 0 ∨ ∃ t ∈ l.transactions, t.id + 1 = l.next_id := by
  unfold Ledger.next_id
  have step : ∀ (txs : List Transaction) (acc : Nat),
      txs.foldl (fun m t => max m (t.id + 1)) acc = acc ∨
        ∃ t ∈ txs, t.id + 1 = txs.foldl (fun m t => max m (t.id + 1)) acc := by
    intro txs
    induction txs with
    | nil => intro acc; exact Or.inl rfl
    | cons u us ih =>
      intro acc
      rcases ih (max acc (u.id + 1)) with h | ⟨t, ht, heq⟩
      · rw [List.foldl_cons, h]
        rcases Nat.le_total (u.id + 1) acc with hle | hle
        · exact Or.inl (Nat.max_eq_left hle)
        · right
          exact ⟨u, List.mem_cons_self u us, (Nat.max_eq_right hle).symm⟩
      · right
        exact ⟨t, List.mem_cons_of_mem u ht, by rw [List.foldl_cons]; exact heq⟩
  exact step l.transactions 0

theorem removeById_none {txs : List Transaction} {i : Nat}
    (h : ∀ t ∈ txs, t.id ≠ i) : removeById txs i = none := by
  induction txs with
  | nil => rfl
  | cons t ts ih =>
    simp only [removeById]
    rw [if_neg (h t (List.mem_cons_self t ts))]
    rw [ih fun u hu => h u (List.mem_cons_of_mem t hu)]

theorem removeById_some : ∀ {txs : List Transaction} {i : Nat},
    (∃ t ∈ txs, t.id = i) →
      ∃ t' pre post, removeById txs i = some (t', pre ++ post) ∧ t'.id = i ∧
        txs = pre ++ t' :: post := by
  intro txs
  induction txs with
  | nil => rintro i ⟨t, ht, _⟩; cases ht
  | cons u us ih =>
    rintro i ⟨t, ht, hid⟩
    by_cases hu : u.id = i
    · refine ⟨u, [], us, ?_, hu, rfl⟩
      simp [removeById, hu]
    · have hmem : t ∈ us := by
        rcases List.mem_cons.mp ht with heq | hmem
        · exact absurd (heq ▸ hid) hu
        · exact hmem
      obtain ⟨t', pre, post, hrem, hid', hsplit⟩ := ih ⟨t, hmem, hid⟩
      refine ⟨t', u :: pre, post, ?_, hid', ?_⟩
      · simp only [removeById, hu, ite_false, hrem]
        simp
      · simp [hsplit]

/-! ## Claims -/

/-- C1: for every ledger and every pair of timestamps with start ≤ end,
the net_balance of generate_summary_by_range equals the sum of the signed
amounts of exactly the transactions whose timestamp lies in the inclusive
range; over the whole ledger, net_balance = total_income − total_expenses
= sum of all amounts. -/
theorem C1_net_balance_reconciles :
    (∀ (start stop : Timestamp) (l : Ledger), start ≤ stop →
      ∃ s : Summary,
        ReportGenerator.generate_summary_by_range start stop l =
          Except.ok s ∧
        s.net_balance = ((l.in_range start stop).map Transaction.amount).sum) ∧
    (∀ l : Ledger, l.net_balance = l.total_income - l.total_expenses ∧
      l.net_balance = (l.transactions.map Transaction.amount).sum) := by
  constructor
  · intro start stop l h
    refine ⟨summarize (l.in_range start stop), ?_, ?_⟩
    · unfold ReportGenerator.generate_summary_by_range Ledger.filter_by_range
      rw [if_pos h]
    · exact income_sub_expenses _
  · intro l
    exact ⟨rfl, income_sub_expenses l.transactions⟩

theorem C1_witness :
    ∃ s : Summary,
      ReportGenerator.generate_summary_by_range ⟨2025, 5, 1, 0, 0, 0⟩
        ⟨2025, 5, 31, 23, 59, 59⟩ sampleLedger = Except.ok s ∧
      s.net_balance = ((sampleLedger.in_range ⟨2025, 5, 1, 0, 0, 0⟩
        ⟨2025, 5, 31, 23, 59, 59⟩).map Transaction.amount).sum :=
  C1_net_balance_reconciles.1 ⟨2025, 5, 1, 0, 0, 0⟩ ⟨2025, 5, 31, 23, 59, 59⟩
    sampleLedger (by decide)

/-- C2: in every Summary the report generator produces, the sum of the
signed per-category totals of by_category equals net_balance exactly. -/
theorem C2_by_category_sums_to_net_balance (start stop : Timestamp)
    (l : Ledger) (s : Summary)
    (h : ReportGenerator.generate_summary_by_range start stop l =
      Except.ok s) :
    (s.by_category.map Prod.snd).sum = s.net_balance := by
  unfold ReportGenerator.generate_summary_by_range Ledger.filter_by_range at h
  by_cases hle : start ≤ stop
  · rw [if_pos hle] at h
    dsimp only at h
    injection h with h
    subst h
    show ((by_category_of _).map Prod.snd).sum =
      total_income_of _ - total_expenses_of _
    rw [by_category_sum, income_sub_expenses]
  · rw [if_neg hle] at h
    exact absurd h (by simp)

theorem C2_witness :
    (sampleSummary.by_category.map Prod.snd).sum = sampleSummary.net_balance :=
  C2_by_category_sums_to_net_balance ⟨2025, 5, 1, 0, 0, 0⟩
    ⟨2025, 5, 31, 23, 59, 59⟩ sampleLedger sampleSummary (by rfl)

/-- C9: a transaction with amount exactly 0 is classified as income for
aggregation: it is counted by total_income's filter and excluded from
total_expenses's filter. -/
theorem C9_zero_amount_is_income (l : Ledger) (t : Transaction)
    (hmem : t ∈ l.transactions) (h0 : t.amount = 0) :
    t.is_income = true ∧ t.is_expense = false ∧
      t ∈ l.transactions.filter Transaction.is_income ∧
      ¬ t ∈ l.transactions.filter Transaction.is_expense := by
  have hi : t.is_income = true := by
    simp [Transaction.is_income, h0]
  have he : t.is_expense = false := by
    simp [Transaction.is_expense, h0]
  refine ⟨hi, he, List.mem_filter.mpr ⟨hmem, hi⟩, ?_⟩
  intro hc
  have hcexp := (List.mem_filter.mp hc).2
  rw [he] at hcexp
  cases hcexp

theorem C9_witness :
    (Transaction.mk 0 ⟨2025, 1, 1, 0, 0, 0⟩ "gift" 0 none).is_income = true ∧
    (Transaction.mk 0 ⟨2025, 1, 1, 0, 0, 0⟩ "gift" 0 none).is_expense = false ∧
    Transaction.mk 0 ⟨2025, 1, 1, 0, 0, 0⟩ "gift" 0 none ∈
      (Ledger.mk [⟨0, ⟨2025, 1, 1, 0, 0, 0⟩, "gift", 0, none⟩]).transactions.filter
        Transaction.is_income ∧
    ¬ Transaction.mk 0 ⟨2025, 1, 1, 0, 0, 0⟩ "gift" 0 none ∈
      (Ledger.mk [⟨0, ⟨2025, 1, 1, 0, 0, 0⟩, "gift", 0, none⟩]).transactions.filter
        Transaction.is_expense :=
  C9_zero_amount_is_income ⟨[⟨0, ⟨2025, 1, 1, 0, 0, 0⟩, "gift", 0, none⟩]⟩
    ⟨0, ⟨2025, 1, 1, 0, 0, 0⟩, "gift", 0, none⟩ (by decide) (by decide)

/-- C10: a category whose transactions within the period sum to exactly
zero does not appear as a key of by_category in the Summary produced by
generate_summary_by_range. -/
theorem C10_zero_net_category_omitted (start stop : Timestamp) (l : Ledger)
    (s : Summary) (c : String)
    (h : ReportGenerator.generate_summary_by_range start stop l =
      Except.ok s)
    (hz : category_total (l.in_range start stop) c = 0) :
    ¬ c ∈ s.by_category.map Prod.fst := by
  unfold ReportGenerator.generate_summary_by_range Ledger.filter_by_range at h
  by_cases hle : start ≤ stop
  · rw [if_pos hle] at h
    dsimp only at h
    injection h with h
    subst h
    intro hc
    obtain ⟨p, hp, hfst⟩ := List.mem_map.mp hc
    obtain ⟨k, v⟩ := p
    have hpacc := List.mem_filter.mp hp
    have hnz : ¬ v = 0 := by
      have := hpacc.2
      simpa using this
    subst hfst
    have hval : valueOf (accumulateByCategory (l.in_range start stop)) k = v :=
      mem_nodup_valueOf hpacc.1
        (nodup_keys_accumulate (l.in_range start stop) [] (by simp))
    have hsum : valueOf (accumulateByCategory (l.in_range start stop)) k =
        category_total (l.in_range start stop) k := by
      unfold accumulateByCategory
      rw [valueOf_accumulate]
      simp [valueOf]
    rw [hsum, hz] at hval
    exact hnz hval.symm
  · rw [if_neg hle] at h
    exact absurd h (by simp)

theorem C10_witness :
    ¬ "travel" ∈
      (Summary.mk 12400 12300 100 [("salary", 100)]).by_category.map
        Prod.fst :=
  C10_zero_net_category_omitted ⟨2025, 5, 1, 0, 0, 0⟩
    ⟨2025, 5, 31, 23, 59, 59⟩ cancelLedger
    ⟨12400, 12300, 100, [("salary", 100)]⟩ "travel" (by rfl) (by decide)

/-! ## CSV lemmas and C3 -/

theorem join_cons (x : String) (xs : List String) :
    String.join (x :: xs) = x ++ String.join xs := by
  have step : ∀ (ys : List String) (a : String),
      ys.foldl (fun acc y => acc ++ y) a = a ++ String.join ys := by
    intro ys
    induction ys with
    | nil => intro a; simp [String.join]
    | cons y ys ih =>
      intro a
      show (ys.foldl (fun acc y => acc ++ y) (a ++ y)) = _
      rw [ih (a ++ y)]
      have hj : String.join (y :: ys) = y ++ String.join ys := by
        show ys.foldl (fun acc z => acc ++ z) ("" ++ y) = _
        rw [ih ("" ++ y), String.empty_append]
      rw [hj, String.append_assoc]
  show xs.foldl (fun acc y => acc ++ y) ("" ++ x) = _
  rw [step xs ("" ++ x), String.empty_append]

theorem join_append (l1 l2 : List String) :
    String.join (l1 ++ l2) = String.join l1 ++ String.join l2 := by
  induction l1 with
  | nil => simp [String.join, String.empty_append]
  | cons x xs ih =>
    rw [List.cons_append, join_cons, join_cons, ih, String.append_assoc]

theorem foldl_csv_rows (l : List (String × Int)) :
    ∀ init : String, l.foldl (fun acc p => acc ++ csv_row p) init =
      init ++ String.join (l.map csv_row) := by
  induction l with
  | nil => intro init; simp [String.join]
  | cons p rest ih =>
    intro init
    simp only [List.foldl_cons, List.map_cons]
    rw [ih, join_cons, String.append_assoc]

theorem dot_not_in_natDigits (m : Nat) : ¬ '.' ∈ natDigits m := by
  induction m using Nat.strong_induction_on with
  | _ m ih =>
    unfold natDigits
    split
    next h =>
      intro hmem
      simp only [List.mem_singleton] at hmem
      exact digitChar_ne_dot m hmem.symm
    next h =>
      intro hmem
      rcases List.mem_append.mp hmem with h1 | h2
      · exact ih (m / 10) (by omega) h1
      · simp only [List.mem_singleton] at h2
        exact digitChar_ne_dot (m % 10) h2.symm

/-- C3: export_to_csv serializes every Summary in the fixed layout — the
`category,amount` header, one row per by_category entry in the summary's
order, one blank line, then the three total rows — every amount carrying
exactly two decimal digits, and exporting the same Summary twice to the
same destination yields byte-identical contents. -/
theorem C3_csv_export_layout :
    (∀ s : Summary, csv_of_summary s =
      String.join ((csv_layout_lines s).map fun ln => ln ++ "\n")) ∧
    (∀ n : Int, ∃ (pre : String) (c1 c2 : Char),
      format_amount n = pre ++ String.mk ['.', c1, c2] ∧
      c1.isDigit = true ∧ c2.isDigit = true ∧ ¬ '.' ∈ pre.toList) ∧
    (∀ (s : Summary) (d : Destination),
      ReportGenerator.export_to_csv s (ReportGenerator.export_to_csv s d) =
        ReportGenerator.export_to_csv s d) := by
  refine ⟨?_, ?_, fun s d => rfl⟩
  · intro s
    unfold csv_of_summary csv_layout_lines
    simp only [List.map_cons, List.map_append, join_cons, join_append]
    rw [foldl_csv_rows]
    simp only [csv_row, Function.comp_def, List.map_map, String.join,
      String.append_assoc, String.append_empty, String.empty_append]
    have hfun : csv_row = fun x : String × Int =>
        x.1 ++ ("," ++ (format_amount x.2 ++ "\n")) := by
      funext p
      unfold csv_row
      rw [String.append_assoc, String.append_assoc]
    rw [hfun]
    rfl
  · intro n
    refine ⟨String.mk ((if n < 0 then ['-'] else []) ++
        natDigits (n.natAbs / 100)),
      digitChar (n.natAbs % 100 / 10), digitChar (n.natAbs % 100 % 10),
      ?_, digitChar_isDigit _, digitChar_isDigit _, ?_⟩
    · unfold format_amount pad2
      show String.mk _ = String.mk _
      simp [List.append_assoc]
    · rw [toList_mk]
      intro hmem
      rcases List.mem_append.mp hmem with h1 | h2
      · by_cases hneg : n < 0
        · rw [if_pos hneg] at h1
          simp only [List.mem_singleton] at h1
          cases h1
        · rw [if_neg hneg] at h1
          cases h1
      · exact dot_not_in_natDigits _ h2

/-! ## Id assignment and removal: C4, C5 -/

theorem removeById_eq_some : ∀ {txs : List Transaction} {i : Nat}
    {t : Transaction} {rest : List Transaction},
    removeById txs i = some (t, rest) →
      ∃ pre post, txs = pre ++ t :: post ∧ rest = pre ++ post ∧ t.id = i := by
  intro txs
  induction txs with
  | nil => intro i t rest h; exact absurd h (by simp [removeById])
  | cons u us ih =>
    intro i t rest h
    unfold removeById at h
    split at h
    next hu =>
      injection h with h
      injection h with h1 h2
      subst h1
      subst h2
      exact ⟨[], us, rfl, rfl, hu⟩
    next hu =>
      split at h
      next w rest2 hrec =>
        injection h with h
        injection h with h1 h2
        subst h1
        subst h2
        obtain ⟨pre, post, hsplit, hrest, hid⟩ := ih hrec
        exact ⟨u :: pre, post, by rw [hsplit]; rfl, by rw [hrest]; rfl, hid⟩
      next => exact absurd h (by simp)

theorem remove_preserves_uniqueIds {l : Ledger} {i : Nat} {t : Transaction}
    {l2 : Ledger} (h : l.remove i = Except.ok (t, l2)) (hu : uniqueIds l) :
    uniqueIds l2 := by
  unfold Ledger.remove at h
  split at h
  next t0 rest hrec =>
    injection h with h
    injection h with h1 h2
    obtain ⟨pre, post, hsplit, hrest, _⟩ := removeById_eq_some hrec
    have hl2 : l2.transactions = pre ++ post := by rw [← h2, hrest]
    unfold uniqueIds at hu ⊢
    rw [hl2]
    rw [hsplit] at hu
    exact List.Nodup.sublist
      (List.Sublist.map Transaction.id
        (List.Sublist.append_left (List.sublist_cons_self t0 post) pre)) hu
  next => exact absurd h (by simp)

/-- C4 (amended): Ledger.add assigns an id one greater than the maximum id
currently present (0 when the ledger is empty), and ids stay unique after
every add and remove; however, contrary to the claim's never-reuse clause,
an id CAN be reused after removing the transaction carrying the current
maximum id (see the counterexample). -/
theorem C4_id_assignment :
    (∀ (l : Ledger) (ts : Timestamp) (cat : String) (amt : Int)
        (d : Option String),
      (l.transactions = [] → (l.add ts cat amt d).1.id = 0) ∧
      (∀ u ∈ l.transactions, u.id < (l.add ts cat amt d).1.id) ∧
      ((l.add ts cat amt d).1.id = 0 ∨
        ∃ u ∈ l.transactions, u.id + 1 = (l.add ts cat amt d).1.id) ∧
      (uniqueIds l → uniqueIds (l.add ts cat amt d).2)) ∧
    (∀ (l : Ledger) (i : Nat) (t : Transaction) (l2 : Ledger),
      l.remove i = Except.ok (t, l2) → uniqueIds l → uniqueIds l2) := by
  constructor
  · intro l ts cat amt d
    refine ⟨?_, ?_, ?_, ?_⟩
    · intro h
      show l.next_id = 0
      unfold Ledger.next_id
      rw [h]
      rfl
    · intro u hu
      exact next_id_gt l u hu
    · exact next_id_achieved l
    · intro hu
      unfold uniqueIds at hu ⊢
      unfold Ledger.add
      dsimp only
      rw [List.map_append]
      simp only [List.map_cons, List.map_nil]
      rw [List.nodup_append]
      refine ⟨hu, List.nodup_singleton _, ?_⟩
      intro x hx hmem
      simp only [List.mem_singleton] at hmem
      obtain ⟨u, humem, hxid⟩ := List.mem_map.mp hx
      subst hmem
      exact absurd hxid (Nat.ne_of_lt (next_id_gt l u humem))
  · intro l i t l2 h hu
    exact remove_preserves_uniqueIds h hu

theorem C4_witness :
    (((⟨[]⟩ : Ledger).add ⟨2025, 1, 1, 0, 0, 0⟩ "a" 100 none).1.id = 0) ∧
    uniqueIds
      (((⟨[]⟩ : Ledger).add ⟨2025, 1, 1, 0, 0, 0⟩ "a" 100 none).2) :=
  ⟨(C4_id_assignment.1 ⟨[]⟩ ⟨2025, 1, 1, 0, 0, 0⟩ "a" 100 none).1 rfl,
    (C4_id_assignment.1 ⟨[]⟩ ⟨2025, 1, 1, 0, 0, 0⟩ "a" 100 none).2.2.2
      (by simp [uniqueIds])⟩

/-- C4 counterexample: adding twice to an empty ledger assigns ids 0 and 1,
removing id 1 succeeds, and the very next add assigns id 1 again — the id
of a previously removed transaction is reused, refuting the claim's "ids
are never reused even after a removal". -/
theorem C4_counterexample :
    (((⟨[]⟩ : Ledger).add ⟨2025, 1, 1, 0, 0, 0⟩ "a" 100 none).2.add
        ⟨2025, 1, 2, 0, 0, 0⟩ "b" 200 none).1.id = 1 ∧
    ((((⟨[]⟩ : Ledger).add ⟨2025, 1, 1, 0, 0, 0⟩ "a" 100 none).2.add
        ⟨2025, 1, 2, 0, 0, 0⟩ "b" 200 none).2.remove 1 =
      Except.ok (⟨1, ⟨2025, 1, 2, 0, 0, 0⟩, "b", 200, none⟩,
        ⟨[⟨0, ⟨2025, 1, 1, 0, 0, 0⟩, "a", 100, none⟩]⟩)) ∧
    ((⟨[⟨0, ⟨2025, 1, 1, 0, 0, 0⟩, "a", 100, none⟩]⟩ : Ledger).add
        ⟨2025, 1, 3, 0, 0, 0⟩ "c" 300 none).1.id = 1 := by
  refine ⟨rfl, rfl, rfl⟩

/-- C5: removing an absent id fails with a NotFoundError (no new ledger
state is produced, so the ledger is untouched), and removing a present id
removes and returns exactly the transaction with that id. -/
theorem C5_remove (l : Ledger) (i : Nat) :
    ((∀ t ∈ l.transactions, t.id ≠ i) →
      l.remove i = Except.error (BudgetError.notFoundError (toString i))) ∧
    ((∃ t ∈ l.transactions, t.id = i) →
      ∃ t2 l2, l.remove i = Except.ok (t2, l2) ∧ t2.id = i ∧
        ∃ pre post, l.transactions = pre ++ t2 :: post ∧
          l2.transactions = pre ++ post) := by
  constructor
  · intro h
    unfold Ledger.remove
    rw [removeById_none h]
  · intro h
    obtain ⟨t2, pre, post, hrem, hid, hsplit⟩ := removeById_some h
    refine ⟨t2, ⟨pre ++ post⟩, ?_, hid, pre, post, hsplit, rfl⟩
    unfold Ledger.remove
    rw [hrem]

theorem C5_witness :
    sampleLedger.remove 7 =
      Except.error (BudgetError.notFoundError (toString 7)) ∧
    ∃ t2 l2, sampleLedger.remove 1 = Except.ok (t2, l2) ∧ t2.id = 1 ∧
      ∃ pre post, sampleLedger.transactions = pre ++ t2 :: post ∧
        l2.transactions = pre ++ post :=
  ⟨(C5_remove sampleLedger 7).1 (by decide),
    (C5_remove sampleLedger 1).2
      ⟨⟨1, ⟨2025, 5, 10, 12, 0, 0⟩, "groceries", -40025, none⟩,
        by decide, rfl⟩⟩

/-! ## Range filtering: C6 -/

/-- C6: filter_by_range is inclusive on both endpoints (a transaction at
exactly `stop` is in, one at `stop` plus one second is out), fails with a
ValidationError exactly when start > stop, and yields an empty list — not
an error — when nothing is in range. -/
theorem C6_filter_by_range (l : Ledger) (start stop : Timestamp) :
    (start ≤ stop →
      l.filter_by_range start stop = Except.ok (l.in_range start stop)) ∧
    (¬ start ≤ stop →
      l.filter_by_range start stop =
        Except.error (BudgetError.validationError "start > end")) ∧
    (∀ t, t ∈ l.in_range start stop ↔
      t ∈ l.transactions ∧ start ≤ t.timestamp ∧ t.timestamp ≤ stop) ∧
    (∀ t ∈ l.transactions, t.timestamp = stop → start ≤ t.timestamp →
      t ∈ l.in_range start stop) ∧
    (∀ t ∈ l.transactions, t.timestamp = stop.addOneSecond →
      ¬ t ∈ l.in_range start stop) ∧
    ((∀ t ∈ l.transactions,
        ¬ (start ≤ t.timestamp ∧ t.timestamp ≤ stop)) → start ≤ stop →
      l.filter_by_range start stop = Except.ok []) := by
  have hmem : ∀ t, t ∈ l.in_range start stop ↔
      t ∈ l.transactions ∧ start ≤ t.timestamp ∧ t.timestamp ≤ stop := by
    intro t
    unfold Ledger.in_range
    rw [List.mem_filter]
    rw [decide_eq_true_iff]
  refine ⟨?_, ?_, hmem, ?_, ?_, ?_⟩
  · intro h
    unfold Ledger.filter_by_range
    rw [if_pos h]
  · intro h
    unfold Ledger.filter_by_range
    rw [if_neg h]
  · intro t ht heq hle
    exact (hmem t).mpr ⟨ht, hle, by rw [heq]; exact Timestamp.le_refl stop⟩
  · intro t ht heq hc
    have hrange := ((hmem t).mp hc).2.2
    rw [heq] at hrange
    exact addOneSecond_not_le stop hrange
  · intro hnone h
    unfold Ledger.filter_by_range
    rw [if_pos h]
    unfold Ledger.in_range
    rw [List.filter_eq_nil_iff.mpr ?_]
    intro t ht
    rw [decide_eq_true_iff]
    exact hnone t ht

theorem C6_witness :
    sampleLedger.filter_by_range ⟨2025, 5, 1, 0, 0, 0⟩
        ⟨2025, 5, 31, 23, 59, 59⟩ =
      Except.ok (sampleLedger.in_range ⟨2025, 5, 1, 0, 0, 0⟩
        ⟨2025, 5, 31, 23, 59, 59⟩) ∧
    sampleLedger.filter_by_range ⟨2025, 6, 1, 0, 0, 0⟩
        ⟨2025, 5, 1, 0, 0, 0⟩ =
      Except.error (BudgetError.validationError "start > end") :=
  ⟨(C6_filter_by_range sampleLedger ⟨2025, 5, 1, 0, 0, 0⟩
      ⟨2025, 5, 31, 23, 59, 59⟩).1 (by decide),
    (C6_filter_by_range sampleLedger ⟨2025, 6, 1, 0, 0, 0⟩
      ⟨2025, 5, 1, 0, 0, 0⟩).2.1 (by decide)⟩

/-! ## ISO round-trip: C7 -/

/-- C7: parsing the ISO-8601 rendering of any calendar-valid Timestamp
gives back exactly that value, and any successful parse comes from a valid
Timestamp whose rendering is the input string — so from_iso_format fails
with a FormatError on every string that is not the exact rendering of a
valid Timestamp, and never truncates or rounds. -/
theorem C7_iso_roundtrip :
    (∀ t : Timestamp, t.isValid →
      Timestamp.from_iso_format t.to_iso_format = Except.ok t) ∧
    (∀ (s : String) (t : Timestamp),
      Timestamp.from_iso_format s = Except.ok t →
        t.isValid ∧ t.to_iso_format = s) := by
  constructor
  · intro t h
    unfold Timestamp.from_iso_format Timestamp.to_iso_format
    rw [toList_mk, fromIsoChars_isoChars h]
  · intro s t h
    unfold Timestamp.from_iso_format at h
    split at h
    next t0 hrec =>
      injection h with h
      subst h
      obtain ⟨hvalid, hchars⟩ := fromIsoChars_sound hrec
      refine ⟨hvalid, ?_⟩
      unfold Timestamp.to_iso_format
      rw [hchars]
      rfl
    next => exact absurd h (by simp)

theorem C7_witness :
    Timestamp.from_iso_format
      (Timestamp.to_iso_format ⟨2024, 2, 29, 23, 59, 59⟩) =
      Except.ok ⟨2024, 2, 29, 23, 59, 59⟩ :=
  C7_iso_roundtrip.1 ⟨2024, 2, 29, 23, 59, 59⟩ (by decide)

/-! ## Budget evaluation: C8 -/

/-- C8: the evaluator's spent equals the summed magnitudes of the expense
transactions of the budget's category dated in the calendar month
containing the reference timestamp, and exceeded holds exactly when spent
exceeds the limit; being a plain function of the ledger and budget, it
mutates neither. -/
theorem C8_evaluate (l : Ledger) (b : Budget) (ref : Timestamp)
    (hval : ∀ t ∈ l.transactions, t.timestamp.isValid) :
    (evaluate l b ref).spent = month_category_expenses l b.category ref ∧
    (evaluate l b ref).limit = b.limit ∧
    ((evaluate l b ref).exceeded = true ↔
      b.limit < (evaluate l b ref).spent) := by
  refine ⟨?_, rfl, ?_⟩
  · unfold evaluate month_category_expenses
    dsimp only
    congr 1
    congr 1
    apply List.filter_congr
    intro t ht
    rw [decide_eq_decide]
    constructor
    · rintro ⟨h1, h2, h3, h4⟩
      obtain ⟨hy, hm⟩ := (month_range_iff (hval t ht)).mp ⟨h3, h4⟩
      exact ⟨h1, h2, hy, hm⟩
    · rintro ⟨h1, h2, h3, h4⟩
      obtain ⟨hlo, hhi⟩ := (month_range_iff (hval t ht)).mpr ⟨h3, h4⟩
      exact ⟨h1, h2, hlo, hhi⟩
  · unfold evaluate
    dsimp only
    exact decide_eq_true_iff

theorem C8_witness :
    (evaluate budgetLedger ⟨"groceries", 60000⟩ ⟨2025, 6, 15, 0, 0, 0⟩).spent =
      month_category_expenses budgetLedger "groceries"
        ⟨2025, 6, 15, 0, 0, 0⟩ ∧
    (evaluate budgetLedger ⟨"groceries", 60000⟩
      ⟨2025, 6, 15, 0, 0, 0⟩).spent = 70000 ∧
    (evaluate budgetLedger ⟨"groceries", 60000⟩
      ⟨2025, 6, 15, 0, 0, 0⟩).exceeded = true :=
  ⟨(C8_evaluate budgetLedger ⟨"groceries", 60000⟩ ⟨2025, 6, 15, 0, 0, 0⟩
      (by decide)).1, by decide, by decide⟩

end BudgetManager
